import Mathlib

/-!
Verification of the Warhammer40K "The Librarian" harvesting scripts.

Shallow embedding of:
  * `fetch_with_backoff` from `KnowledgeGraph/fetch_warhammer_pages_for_lightrag.py`
    (called v2 below) and from `KnowledgeGraph/fetch_warhammer_pages_for_lightrag_v3.py`
    (called v3 below);
  * the per-page driver loop of `main` in the same files;
  * `page_generator` from `get_urls.py`;
  * `node_to_markdown` from both fetch scripts;
  * `safe_filename`, `normalize_categories`, `clean_pagecontent`, `write_doc`
    from `KnowledgeGraph/url_split.py`;
  * the category normalization of `write_markdown` from the fetch scripts.

Machine integers do not occur (the Python code uses small ints and floats that
stay on exact values 2, 4, ..., 64); durations are modelled as `Nat` seconds.
-/

/-! ## Model of API responses (v2/v3 fetch scripts)

A single HTTP exchange, as observed by `fetch_with_backoff`:
  * `exc`: `session.get` raised `requests.RequestException` (timeout, reset, ...);
  * `http status none`: a response whose body is not decodable JSON
    (`r.json()` raises);
  * `http status (some d)`: a response whose body decodes to the JSON object `d`.
`ApiData` models the decoded JSON dict: whether the key `"error"` is present,
the value of `data["error"].get("code")` when it is, and the rendered text
`str((data.get("parse") or {}).get("text") or "")` used by the caller. -/

structure ApiData where
  hasError : Bool
  errorCode : Option String
  parseText : String
deriving DecidableEq

inductive ApiResp where
  | exc
  | http (status : Nat) (body : Option ApiData)
deriving DecidableEq

inductive FetchResult where
  | success (d : ApiData)
  | maxRetriesExceeded
  | rethrown
deriving DecidableEq

def FetchResult.isSuccess : FetchResult → Bool
  | .success _ => true
  | _ => false

/-- One `time.sleep` performed by `fetch_with_backoff` before a retry.
`base` is the current `backoff` value in seconds; `jittered` is true when the
source adds `random.uniform(0, 1.0)` to it (the maxlag branch, line 211 of v2).
The bounded random addend itself is not part of the deterministic model. -/
structure Sleep where
  base : Nat
  jittered : Bool
deriving DecidableEq

def MAX_RETRIES : Nat := 6
def INITIAL_BACKOFF : Nat := 2

/-- Body of the `for attempt in range(1, MAX_RETRIES + 1)` loop of
`fetch_with_backoff` (v2, fetch_warhammer_pages_for_lightrag.py lines 201-222).
`resps i` is the outcome of the request issued on loop iteration `i` (0-based;
Python's `attempt` is `i + 1`); `remaining` counts loop iterations left, so
`remaining = 0` is loop exhaustion (`raise RuntimeError("Max retries exceeded")`)
and the Python guard `attempt == MAX_RETRIES` is `remaining = 1` here.
Branches, in source order:
  * status 429 / 5xx: `time.sleep(backoff); backoff *= 2; continue`
    (note: no 60-second cap on this branch, line 207);
  * JSON decodes, `"error"` present with code `"maxlag"`:
    `time.sleep(backoff + random.uniform(0, 1.0)); backoff = min(backoff*2, 60)`;
  * JSON decodes otherwise: `return data`;
  * `requests.RequestException`: `time.sleep(backoff); backoff = min(backoff*2, 60)`;
  * other exception (JSON decode failure): same sleep and cap, and the exception
    is re-raised when `attempt == MAX_RETRIES`.
Returns the result together with the list of sleeps performed. -/
def fetchAux (resps : Nat → ApiResp) (i : Nat) (backoff : Nat) :
    Nat → FetchResult × List Sleep
  | 0 => (.maxRetriesExceeded, [])
  | remaining + 1 =>
    match resps i with
    | .exc =>
      let k := fetchAux resps (i + 1) (min (backoff * 2) 60) remaining
      (k.1, ⟨backoff, false⟩ :: k.2)
    | .http status body =>
      if status == 429 || (500 ≤ status && status < 600) then
        let k := fetchAux resps (i + 1) (backoff * 2) remaining
        (k.1, ⟨backoff, false⟩ :: k.2)
      else
        match body with
        | none =>
          if remaining = 0 then (.rethrown, [⟨backoff, false⟩])
          else
            let k := fetchAux resps (i + 1) (min (backoff * 2) 60) remaining
            (k.1, ⟨backoff, false⟩ :: k.2)
        | some d =>
          if d.hasError && d.errorCode == some "maxlag" then
            let k := fetchAux resps (i + 1) (min (backoff * 2) 60) remaining
            (k.1, ⟨backoff, true⟩ :: k.2)
          else (.success d, [])

def fetch_with_backoff (resps : Nat → ApiResp) : FetchResult × List Sleep :=
  fetchAux resps 0 INITIAL_BACKOFF MAX_RETRIES

/-- `fetch_with_backoff` of fetch_warhammer_pages_for_lightrag_v3.py
(lines 151-162).  The loop shell `for attempt in range(1, MAX_RETRIES + 1)`
is kept, but every path through the body returns `r.json()` or raises
`RuntimeError` on the first iteration, so no retry ever happens.  The second
component counts requests actually issued. -/
def fetchV3Aux (resps : Nat → ApiResp) (i : Nat) : Nat → FetchResult × Nat
  | 0 => (.maxRetriesExceeded, 0)
  | _ + 1 =>
    match resps i with
    | .exc => (.rethrown, 1)
    | .http _ none => (.rethrown, 1)
    | .http _ (some d) => (.success d, 1)

def fetch_with_backoff_v3 (resps : Nat → ApiResp) : FetchResult × Nat :=
  fetchV3Aux resps 0 MAX_RETRIES

/-- Response classification of the v2 retry loop: the responses on which the
loop sleeps and continues (or sleeps and fails) rather than returning data. -/
def retryableV2 : ApiResp → Bool
  | .exc => true
  | .http _ none => true
  | .http status (some d) =>
    (status == 429 || (500 ≤ status && status < 600)) ||
      (d.hasError && d.errorCode == some "maxlag")

/-- Per-page classification by `main` (v2 lines 268-326) of a finished fetch:
a fetch that raised is a page failure, an `"error"` key in the returned data
raises `RuntimeError(f"API error: ...")`, an empty rendered text raises
`RuntimeError("Empty HTML content")`, and otherwise the page is written. -/
inductive ErrDesc where
  | fetchFailure
  | apiError (code : Option String)
  | emptyHtml
deriving DecidableEq

def processPage : FetchResult → Except ErrDesc Unit
  | .maxRetriesExceeded => .error .fetchFailure
  | .rethrown => .error .fetchFailure
  | .success d =>
    if d.hasError then .error (.apiError d.errorCode)
    else if d.parseText = "" then .error .emptyHtml
    else .ok ()

/-! ### Claims C1 and C2 -/

/-- Claim C1 (as stated) is false: on the HTTP 429/5xx branch the doubling is
not capped (v2 line 207 is `backoff *= 2`, without the `min(..., 60)` used on
the other branches), so six consecutive 429 responses are slept through for
2, 4, 8, 16, 32, 64 seconds - the sixth backoff duration is 64 > 60. -/
theorem claim_C1_counterexample :
    ((fetch_with_backoff (fun _ => ApiResp.http 429 none)).2.map Sleep.base
      = [2, 4, 8, 16, 32, 64]) ∧ ¬ (64 ≤ 60) := by
  decide

/-- Claim C1, amended: the backoff slept before each retry starts at 2 seconds
and doubles on each retryable failure; it is capped at 60 seconds on the
request-exception and maxlag branches (base durations 2, 4, 8, 16, 32, 60, the
maxlag sleeps additionally jittered), but on the HTTP 429/5xx branch the
doubling is uncapped, giving 2, 4, 8, 16, 32, 64 over the six bounded
attempts. -/
theorem claim_C1_amended :
    ((fetch_with_backoff (fun _ => ApiResp.exc)).2.map Sleep.base
      = [2, 4, 8, 16, 32, 60]) ∧
    ((fetch_with_backoff (fun _ => ApiResp.http 429 none)).2.map Sleep.base
      = [2, 4, 8, 16, 32, 64]) ∧
    ((fetch_with_backoff
        (fun _ => ApiResp.http 200 (some ⟨true, some "maxlag", ""⟩))).2
      = [⟨2, true⟩, ⟨4, true⟩, ⟨8, true⟩, ⟨16, true⟩, ⟨32, true⟩, ⟨60, true⟩]) := by
  decide

/-- Claim C2 (as stated) is false for the v3 file it cites: v3's
`fetch_with_backoff` never retries.  A 429 response with a JSON body is
returned as data after exactly one request - no retry, no terminal failure. -/
theorem claim_C2_counterexample :
    fetch_with_backoff_v3
        (fun _ => ApiResp.http 429 (some ⟨true, some "ratelimited", ""⟩))
      = (FetchResult.success ⟨true, some "ratelimited", ""⟩, 1) := by
  decide

/-- Retry-loop invariant for the amended claim C2: as long as every consumed
response is retryable, each iteration sleeps once, and exhausting `remaining`
iterations ends in a terminal (non-success) result with one sleep per
iteration. -/
theorem fetchAux_all_retryable (resps : Nat → ApiResp) :
    ∀ remaining i backoff,
      (∀ j, j < remaining → retryableV2 (resps (i + j)) = true) →
      (fetchAux resps i backoff remaining).1.isSuccess = false ∧
        (fetchAux resps i backoff remaining).2.length = remaining := by
  intro remaining
  induction remaining with
  | zero => intro i backoff _; exact ⟨rfl, rfl⟩
  | succ r ih =>
    intro i backoff h
    have h0 : retryableV2 (resps i) = true := by
      have := h 0 (Nat.succ_pos r); simpa using this
    have hrest : ∀ j, j < r → retryableV2 (resps (i + 1 + j)) = true := by
      intro j hj
      have := h (j + 1) (by omega)
      simpa [Nat.add_comm, Nat.add_assoc, Nat.add_left_comm] using this
    match hr : resps i with
    | .exc =>
      have := ih (i + 1) (min (backoff * 2) 60) hrest
      simp [fetchAux, hr, this.1, this.2]
    | .http status none =>
      by_cases hs : (status == 429 || (500 ≤ status && status < 600)) = true
      · have := ih (i + 1) (backoff * 2) hrest
        simp [fetchAux, hr, hs, this.1, this.2]
      · rcases Nat.eq_zero_or_pos r with hz | hp
        · subst hz
          simp [fetchAux, hr, hs, FetchResult.isSuccess]
        · have := ih (i + 1) (min (backoff * 2) 60) hrest
          have hrne : ¬ r = 0 := by omega
          simp [fetchAux, hr, hs, hrne, this.1, this.2]
    | .http status (some d) =>
      by_cases hs : (status == 429 || (500 ≤ status && status < 600)) = true
      · have := ih (i + 1) (backoff * 2) hrest
        simp [fetchAux, hr, hs, this.1, this.2]
      · have hm : (d.hasError && d.errorCode == some "maxlag") = true := by
          have hre : retryableV2 (ApiResp.http status (some d)) = true := by
            rw [← hr]; exact h0
          simp [retryableV2, hs] at hre
          simp [hre]
        have := ih (i + 1) (min (backoff * 2) 60) hrest
        simp [fetchAux, hr, hs, hm, this.1, this.2]

/-- Claim C2, amended.  In v2, `fetch_with_backoff`:
  * returns immediately (no sleep) any decodable response whose status is
    neither 429 nor 5xx and whose JSON is not a maxlag error - in particular
    any other structured API error object is returned un-retried, and the
    caller's `if "error" in data` check then makes it fatal for that call;
  * when all of the six bounded attempts hit retryable outcomes (429/5xx,
    request exception, undecodable body, or maxlag error), it sleeps once per
    attempt and ends in a terminal non-success result;
while v3's `fetch_with_backoff` issues exactly one request and never
retries. -/
theorem claim_C2_amended :
    (∀ (resps : Nat → ApiResp) (status : Nat) (d : ApiData),
      resps 0 = ApiResp.http status (some d) →
      (status == 429 || (500 ≤ status && status < 600)) = false →
      (d.hasError && d.errorCode == some "maxlag") = false →
      fetch_with_backoff resps = (.success d, [])) ∧
    (∀ resps : Nat → ApiResp,
      (∀ j, j < MAX_RETRIES → retryableV2 (resps j) = true) →
      (fetch_with_backoff resps).1.isSuccess = false ∧
        (fetch_with_backoff resps).2.length = MAX_RETRIES) ∧
    (∀ d : ApiData, d.hasError = true → (processPage (.success d)).isOk = false) ∧
    (∀ resps : Nat → ApiResp, (fetch_with_backoff_v3 resps).2 = 1) := by
  refine ⟨?_, ?_, ?_, ?_⟩
  · intro resps status d h0 hs hm
    simp [fetch_with_backoff, MAX_RETRIES, fetchAux, h0, hs, hm]
  · intro resps h
    have := fetchAux_all_retryable resps MAX_RETRIES 0 INITIAL_BACKOFF
      (by intro j hj; simpa using h j hj)
    exact this
  · intro d hd
    simp [processPage, hd, Except.isOk, Except.toBool]
  · intro resps
    match h : resps 0 with
    | .exc => simp [fetch_with_backoff_v3, MAX_RETRIES, fetchV3Aux, h]
    | .http s none => simp [fetch_with_backoff_v3, MAX_RETRIES, fetchV3Aux, h]
    | .http s (some d) => simp [fetch_with_backoff_v3, MAX_RETRIES, fetchV3Aux, h]

/-- Witness for the amended claim C2: six consecutive 500 responses with
undecodable bodies exhaust the retries of v2 with six sleeps and no success. -/
theorem claim_C2_amended_witness :
    (fetch_with_backoff (fun _ => ApiResp.http 500 none)).1.isSuccess = false ∧
      (fetch_with_backoff (fun _ => ApiResp.http 500 none)).2.length = MAX_RETRIES :=
  claim_C2_amended.2.1 (fun _ => ApiResp.http 500 none) (by decide)

/-! ## Generic string helpers shared by the url_split.py embedding

All scanners below work on `List Char` with an explicit fuel argument that is
structurally decreased once per consumed character; callers pass
`length + 1` fuel, which is always sufficient, so the fuel-0 fallbacks are
never reached on the calls made here.  Python `str` methods are modelled on
the character ranges the repository's data uses (ASCII semantics of
whitespace, case, and word characters). -/

/-- Python whitespace characters (`str.strip`, regex `\s`), ASCII range. -/
def pyWsChar (c : Char) : Bool :=
  c == ' ' || c == '\t' || c == '\n' || c == '\r' || c == '\x0b' || c == '\x0c'

/-- Python `str.strip()`. -/
def stripL (l : List Char) : List Char :=
  ((l.dropWhile (fun c => pyWsChar c)).reverse.dropWhile (fun c => pyWsChar c)).reverse

def pyStripS (s : String) : String := ⟨stripL s.data⟩

/-- `"sep".join(parts)`. -/
def joinSep (sep : String) : List String → String
  | [] => ""
  | [x] => x
  | x :: y :: xs => x ++ sep ++ joinSep sep (y :: xs)

/-- Python `str.replace(pat, repl)`: all occurrences, left to right,
non-overlapping (`pat` is never empty here). -/
def replaceAllL (pat repl : List Char) : Nat → List Char → List Char
  | 0, cs => cs
  | _ + 1, [] => []
  | f + 1, c :: rest =>
    if pat.isPrefixOf (c :: rest) then
      repl ++ replaceAllL pat repl f ((c :: rest).drop pat.length)
    else
      c :: replaceAllL pat repl f rest

def replaceAllS (pat repl s : String) : String :=
  ⟨replaceAllL pat.data repl.data (s.data.length + 1) s.data⟩

/-- Keep only the first occurrence of each element (`dict.fromkeys` /
set-comprehension dedup), with the elements already seen accumulated. -/
def dedupAux (seen : List String) : List String → List String
  | [] => []
  | x :: xs => if x ∈ seen then dedupAux seen xs else x :: dedupAux (x :: seen) xs

/-! ## normalize_categories (url_split.py lines 54-66) -/

/-- JSON whitespace. -/
def jsonWsChar (c : Char) : Bool := c == ' ' || c == '\t' || c == '\n' || c == '\r'

/-- One JSON string literal body up to the closing quote; escape sequences are
not modelled (none occur in the inputs considered), so a backslash fails. -/
def jsonStrAux : Nat → List Char → Option (List Char × List Char)
  | 0, _ => none
  | _ + 1, [] => none
  | f + 1, c :: rest =>
    if c == '"' then some ([], rest)
    else if c == '\\' then none
    else
      match jsonStrAux f rest with
      | some (s, r) => some (c :: s, r)
      | none => none

/-- Comma-separated JSON string items after the opening bracket. -/
def jsonItems : Nat → List Char → Option (List String)
  | 0, _ => none
  | f + 1, cs =>
    match cs with
    | '"' :: r =>
      match jsonStrAux (r.length + 1) r with
      | some (s, rest) =>
        match rest.dropWhile (fun c => jsonWsChar c) with
        | ',' :: r2 =>
          match jsonItems f (r2.dropWhile (fun c => jsonWsChar c)) with
          | some ss => some (String.mk s :: ss)
          | none => none
        | ']' :: r2 =>
          if (r2.dropWhile (fun c => jsonWsChar c)).isEmpty then some [String.mk s]
          else none
        | _ => none
      | none => none
    | _ => none

/-- Models `json.loads` restricted to JSON arrays of escape-free strings, the
shape the categories field carries; any other input makes the source's bare
`except:` fall back to comma-splitting, modelled by returning `none`. -/
def jsonLoadsStrArray (s : String) : Option (List String) :=
  match s.data.dropWhile (fun c => jsonWsChar c) with
  | '[' :: r =>
    match r.dropWhile (fun c => jsonWsChar c) with
    | ']' :: r2 =>
      if (r2.dropWhile (fun c => jsonWsChar c)).isEmpty then some [] else none
    | r1 => jsonItems (r1.length + 1) r1
  | _ => none

/-- Python `raw.split(",")` (keeps empty pieces). -/
def splitCommaL (acc : List Char) : Nat → List Char → List String
  | 0, _ => [⟨acc.reverse⟩]
  | _ + 1, [] => [⟨acc.reverse⟩]
  | f + 1, c :: rest =>
    if c == ',' then ⟨acc.reverse⟩ :: splitCommaL [] f rest
    else splitCommaL (c :: acc) f rest

def splitCommaS (s : String) : List String :=
  splitCommaL [] (s.data.length + 1) s.data

/-- The cleaning loop of `normalize_categories`: `str(c).replace("Category:",
"").strip()`, keep non-empty, dedupe preserving first-occurrence order. -/
def cleanCats (raw : List String) : List String :=
  dedupAux []
    ((raw.map (fun c => pyStripS (replaceAllS "Category:" "" c))).filter
      (fun s => !(s == "")))

/-- `normalize_categories` on a string argument (url_split.py lines 54-66):
try `json.loads`, on failure split on commas, then clean. -/
def normalize_categories_str (raw : String) : List String :=
  match jsonLoadsStrArray raw with
  | some xs => cleanCats xs
  | none => cleanCats (splitCommaS raw)

/-- `normalize_categories` on an already-list-of-strings argument. -/
def normalize_categories_list (raw : List String) : List String := cleanCats raw

/-! ## Category handling of write_markdown (fetch scripts, v2 lines 166-180)

The API's key-value category records (`{"*": name}`) are handled here, not by
`normalize_categories`: the names are stripped, deduplicated through a Python
set, and sorted lexicographically. -/

/-- One element of the `categories` list given to `write_markdown`: either a
plain string or a record carrying the name under the key `"*"` (records
without that key do not occur in this shape and are not modelled). -/
inductive CatVal where
  | cstr (s : String)
  | crec (star : String)
deriving DecidableEq

/-- Python truthiness of the element (`for c in cats if c`): an empty string
is falsy; a record is a non-empty dict, hence truthy. -/
def catValTruthy : CatVal → Bool
  | .cstr s => !(s == "")
  | .crec _ => true

/-- `c.get('*') if isinstance(c, dict) and '*' in c else str(c)`. -/
def catValName : CatVal → String
  | .cstr s => s
  | .crec star => star

/-- Code-point lexicographic comparison (Python `<` on `str`). -/
def ltCharsB : List Char → List Char → Bool
  | [], [] => false
  | [], _ :: _ => true
  | _ :: _, [] => false
  | x :: xs, y :: ys =>
    if x.val < y.val then true else if y.val < x.val then false else ltCharsB xs ys

def ltStr (a b : String) : Bool := ltCharsB a.data b.data

def insertSorted (x : String) : List String → List String
  | [] => [x]
  | y :: ys => if ltStr x y then x :: y :: ys else y :: insertSorted x ys

def sortStr : List String → List String
  | [] => []
  | x :: xs => insertSorted x (sortStr xs)

/-- `sorted({ (c.get('*') if ... else str(c)).strip() for c in cats if c })`:
the deduplicated (set) stripped names in ascending lexicographic order. -/
def cats_list (cats : List CatVal) : List String :=
  sortStr (dedupAux [] ((cats.filter catValTruthy).map (fun c => pyStripS (catValName c))))

/-- `cats_text = ", ".join(sorted(...))` of `write_markdown`. -/
def cats_text (cats : List CatVal) : String := joinSep ", " (cats_list cats)

/-! ### Claim C5 -/

/-- Claim C5 (as stated) is false: the two string shapes agree, but the
key-value-record shape is consumed by `write_markdown`, which sorts the names
lexicographically instead of preserving first-occurrence order, so the three
shapes do not all produce the identical ordered list. -/
theorem claim_C5_counterexample :
    normalize_categories_str "[\"C\",\"Badab War\"]" = ["C", "Badab War"] ∧
    normalize_categories_str "Category:C, Category:Badab War" = ["C", "Badab War"] ∧
    cats_list [CatVal.crec "C", CatVal.crec "Badab War"] = ["Badab War", "C"] ∧
    (["Badab War", "C"] ≠ ["C", "Badab War"]) := by
  decide

theorem dedupAux_spec (l : List String) :
    ∀ seen, (dedupAux seen l).Nodup ∧ ∀ x ∈ dedupAux seen l, x ∉ seen := by
  induction l with
  | nil => intro seen; simp [dedupAux]
  | cons a l ih =>
    intro seen
    by_cases h : a ∈ seen
    · simpa [dedupAux, h] using ih seen
    · have h2 := ih (a :: seen)
      refine ⟨?_, ?_⟩
      · rw [dedupAux, if_neg h]
        refine List.nodup_cons.mpr ⟨fun hmem => ?_, h2.1⟩
        exact (h2.2 a hmem) (by simp)
      · intro x hx
        rw [dedupAux, if_neg h] at hx
        rcases List.mem_cons.mp hx with rfl | hx
        · exact h
        · intro hxs
          exact (h2.2 x hx) (by simp [hxs])

/-- Claim C5, amended: the JSON-array and comma-separated shapes, both handled
by `normalize_categories`, produce the identical ordered, first-occurrence
deduplicated, prefix-stripped list (and that list is always duplicate-free);
the key-value-record shape is handled separately by `write_markdown`, which
emits the names deduplicated and lexicographically sorted - "Badab War, C",
not the first-occurrence order "C, Badab War". -/
theorem claim_C5_amended :
    normalize_categories_str "[\"C\",\"Badab War\"]" = ["C", "Badab War"] ∧
    normalize_categories_str "Category:C, Category:Badab War" = ["C", "Badab War"] ∧
    cats_text [CatVal.crec "C", CatVal.crec "Badab War"] = "Badab War, C" ∧
    (∀ raw : List String, (normalize_categories_list raw).Nodup) := by
  refine ⟨by decide, by decide, by decide, ?_⟩
  intro raw
  exact (dedupAux_spec _ []).1

/-! ## safe_filename (url_split.py lines 38-51)

The source first applies `unicodedata.normalize("NFKD", title)` and drops
combining marks; both passes are the identity on the ASCII titles this
development evaluates and the Unicode decomposition tables are not modelled.
The regex step, the underscore trimming, the `or "page"` fallback, and the
collision loop are modelled exactly. -/

/-- ASCII alphanumeric, the class `[A-Za-z0-9]` of the slug regex. -/
def slugKeepChar (c : Char) : Bool :=
  ('A' ≤ c && c ≤ 'Z') || ('a' ≤ c && c ≤ 'z') || ('0' ≤ c && c ≤ '9')

/-- `re.sub(r"[^A-Za-z0-9]+", "_", txt)`: each run of excluded characters
becomes a single underscore. -/
def collapseNonAlnum : Nat → List Char → List Char
  | 0, cs => cs
  | _ + 1, [] => []
  | f + 1, c :: rest =>
    if slugKeepChar c then c :: collapseNonAlnum f rest
    else '_' :: collapseNonAlnum f (rest.dropWhile (fun x => !slugKeepChar x))

/-- `.strip("_")`. -/
def stripUnderscores (l : List Char) : List Char :=
  ((l.dropWhile (fun c => c == '_')).reverse.dropWhile (fun c => c == '_')).reverse

/-- `txt = re.sub(...).strip("_") or "page"`. -/
def slugTxt (title : String) : String :=
  let t : String := ⟨stripUnderscores (collapseNonAlnum (title.data.length + 1) title.data)⟩
  if t = "" then "page" else t

/-- Decimal digits of `n`, least significant first (fuel-structural). -/
def digitsRevFuel : Nat → Nat → List Nat
  | 0, _ => []
  | f + 1, n => if n < 10 then [n] else n % 10 :: digitsRevFuel f (n / 10)

def digitChar (d : Nat) : Char := Char.ofNat (48 + d)

/-- Decimal rendering of `idx` as used by the f-string `f"{base}_{idx}"`. -/
def natDecimal (n : Nat) : String :=
  ⟨((digitsRevFuel (n + 1) n).reverse).map digitChar⟩

/-- The collision loop of `safe_filename`: `while candidate in taken: idx += 1;
candidate = f"{base}_{idx}"`.  The fuel bounds the iterations; `taken.length +
2` iterations always suffice (proved below), so the fuel-0 fallback is never
reached. -/
def resolveCollision (base : String) (taken : List String) : Nat → Nat → String → String
  | 0, _, cand => cand
  | f + 1, idx, cand =>
    if cand ∈ taken then
      resolveCollision base taken f (idx + 1) (base ++ "_" ++ natDecimal (idx + 1))
    else cand

/-- The candidate examined on the iteration where `idx = k`: the bare base for
the initial `idx = 1`, the suffixed form afterwards. -/
def candAt (base : String) (k : Nat) : String :=
  if k ≤ 1 then base else base ++ "_" ++ natDecimal k

/-- The unique filename chosen by `safe_filename` (without the extension). -/
def safeFilenameCand (title : String) (taken : List String) : String :=
  resolveCollision (slugTxt title) taken (taken.length + 2) 1 (slugTxt title)

/-- `safe_filename(title, taken, ext)`: the returned name and the `taken` set
after the `taken.add(candidate)` mutation. -/
def safe_filename (title : String) (taken : List String) (ext : String) :
    String × List String :=
  let cand := safeFilenameCand title taken
  (cand ++ ext, cand :: taken)

/-! ### Correctness of the collision loop -/

def valRev : List Nat → Nat
  | [] => 0
  | d :: ds => d + 10 * valRev ds

theorem valRev_digitsRevFuel : ∀ f n, n < f → valRev (digitsRevFuel f n) = n := by
  intro f
  induction f with
  | zero => intro n h; omega
  | succ g ih =>
    intro n h
    by_cases h10 : n < 10
    · simp [digitsRevFuel, h10, valRev]
    · have hd : n / 10 < g := by
        have h1 : n / 10 < n := Nat.div_lt_self (by omega) (by omega)
        omega
      rw [digitsRevFuel, if_neg h10]
      simp only [valRev, ih (n / 10) hd]
      omega

theorem digitsRevFuel_lt10 : ∀ f n d, d ∈ digitsRevFuel f n → d < 10 := by
  intro f
  induction f with
  | zero => intro n d h; simp [digitsRevFuel] at h
  | succ g ih =>
    intro n d h
    by_cases h10 : n < 10
    · simp [digitsRevFuel, h10] at h; omega
    · rw [digitsRevFuel, if_neg h10] at h
      rcases List.mem_cons.mp h with rfl | h
      · exact Nat.mod_lt _ (by omega)
      · exact ih _ _ h

theorem digitChar_inj :
    ∀ a, a < 10 → ∀ b, b < 10 → digitChar a = digitChar b → a = b := by
  decide

theorem map_digitChar_inj :
    ∀ l1 l2 : List Nat, (∀ x ∈ l1, x < 10) → (∀ x ∈ l2, x < 10) →
      l1.map digitChar = l2.map digitChar → l1 = l2 := by
  intro l1
  induction l1 with
  | nil => intro l2 _ _ h; cases l2 <;> simp_all
  | cons a l ih =>
    intro l2 h1 h2 h
    cases l2 with
    | nil => simp at h
    | cons b m =>
      simp only [List.map_cons, List.cons.injEq] at h
      have ha : a = b :=
        digitChar_inj a (h1 a (by simp)) b (h2 b (by simp)) h.1
      have hm : l = m :=
        ih m (fun x hx => h1 x (by simp [hx])) (fun x hx => h2 x (by simp [hx])) h.2
      rw [ha, hm]

theorem natDecimal_inj : ∀ m n, natDecimal m = natDecimal n → m = n := by
  intro m n h
  have hdata : ((digitsRevFuel (m + 1) m).reverse).map digitChar
      = ((digitsRevFuel (n + 1) n).reverse).map digitChar :=
    congrArg String.data h
  have hrev : (digitsRevFuel (m + 1) m).reverse = (digitsRevFuel (n + 1) n).reverse :=
    map_digitChar_inj _ _
      (fun x hx => digitsRevFuel_lt10 _ _ _ (List.mem_reverse.mp hx))
      (fun x hx => digitsRevFuel_lt10 _ _ _ (List.mem_reverse.mp hx)) hdata
  have hdig : digitsRevFuel (m + 1) m = digitsRevFuel (n + 1) n :=
    List.reverse_injective hrev
  have := valRev_digitsRevFuel (m + 1) m (by omega)
  rw [hdig, valRev_digitsRevFuel (n + 1) n (by omega)] at this
  omega

theorem natDecimal_ne_empty (n : Nat) : natDecimal n ≠ "" := by
  intro h
  have hdata := congrArg String.data h
  by_cases h10 : n < 10 <;>
    simp [natDecimal, digitsRevFuel, h10] at hdata

theorem natDecimal_length_pos (n : Nat) : 0 < (natDecimal n).length := by
  have h := natDecimal_ne_empty n
  cases hl : (natDecimal n).data with
  | nil =>
    exact absurd (by cases hn : natDecimal n; simp_all) h
  | cons c cs =>
    simp [String.length, hl]

theorem candAt_inj (base : String) :
    ∀ i j, 1 ≤ i → 1 ≤ j → candAt base i = candAt base j → i = j := by
  intro i j hi hj h
  by_cases hi1 : i ≤ 1
  · by_cases hj1 : j ≤ 1
    · omega
    · exfalso
      rw [candAt, if_pos hi1, candAt, if_neg hj1] at h
      have := congrArg String.length h
      simp only [String.length_append] at this
      have := natDecimal_length_pos j
      have hu : ("_" : String).length = 1 := rfl
      omega
  · by_cases hj1 : j ≤ 1
    · exfalso
      rw [candAt, if_neg hi1, candAt, if_pos hj1] at h
      have := congrArg String.length h
      simp only [String.length_append] at this
      have := natDecimal_length_pos i
      have hu : ("_" : String).length = 1 := rfl
      omega
    · rw [candAt, if_neg hi1, candAt, if_neg hj1] at h
      have hdata := congrArg String.data h
      simp only [String.data_append, List.append_assoc] at hdata
      have h1 := List.append_cancel_left hdata
      have h2 := List.append_cancel_left h1
      have : natDecimal i = natDecimal j := by
        cases hni : natDecimal i; cases hnj : natDecimal j
        simp_all
      exact natDecimal_inj _ _ this

theorem exists_free_candidate (base : String) (taken : List String) :
    ∃ j, j < taken.length + 2 ∧ candAt base (1 + j) ∉ taken := by
  by_contra hall
  push_neg at hall
  have hmem : ∀ j, j < taken.length + 2 → candAt base (1 + j) ∈ taken := by
    intro j hj
    exact hall j hj
  set l := (List.range (taken.length + 2)).map (fun j => candAt base (1 + j)) with hl
  have hnodup : l.Nodup := by
    refine List.Nodup.map_on ?_ (List.nodup_range _)
    intro x _ y _ hxy
    have := candAt_inj base (1 + x) (1 + y) (by omega) (by omega) hxy
    omega
  have hsub : l.toFinset ⊆ taken.toFinset := by
    intro a ha
    rw [List.mem_toFinset] at ha ⊢
    rw [hl] at ha
    rcases List.mem_map.mp ha with ⟨j, hj, rfl⟩
    exact hmem j (List.mem_range.mp hj)
  have hcard1 : l.toFinset.card = taken.length + 2 := by
    rw [List.toFinset_card_of_nodup hnodup, hl, List.length_map, List.length_range]
  have hcard2 : taken.toFinset.card ≤ taken.length := List.toFinset_card_le _
  have := Finset.card_le_card hsub
  omega

theorem resolveCollision_free (base : String) (taken : List String) :
    ∀ fuel idx, 1 ≤ idx →
      (∃ j, j < fuel ∧ candAt base (idx + j) ∉ taken) →
      resolveCollision base taken fuel idx (candAt base idx) ∉ taken := by
  intro fuel
  induction fuel with
  | zero =>
    intro idx _ h
    rcases h with ⟨j, hj, _⟩
    omega
  | succ f ih =>
    intro idx hidx h
    by_cases hc : candAt base idx ∈ taken
    · rcases h with ⟨j, hj, hfree⟩
      have hj0 : j ≠ 0 := by
        intro hz; rw [hz] at hfree; simp at hfree; exact hfree hc
      obtain ⟨j', rfl⟩ : ∃ j', j = j' + 1 := ⟨j - 1, by omega⟩
      have hnext : (base ++ "_" ++ natDecimal (idx + 1)) = candAt base (idx + 1) := by
        rw [candAt, if_neg (by omega)]
      rw [resolveCollision, if_pos hc, hnext]
      refine ih (idx + 1) (by omega) ⟨j', by omega, ?_⟩
      have : idx + 1 + j' = idx + (j' + 1) := by omega
      rw [this]
      exact hfree
    · rw [resolveCollision, if_neg hc]
      exact hc

/-! ### Claim C6 -/

/-- Claim C6: slug generation is deterministic for a fixed title and empty
used-name set; for every title and every used-name set, the returned base
name is not in the set at call time and is added to the set before returning;
two identical titles in sequence produce distinct names, the second carrying
an appended incrementing numeric suffix, as the concrete run shows. -/
theorem claim_C6 :
    (safe_filename "Blood Angels" [] ".md" = ("Blood_Angels.md", ["Blood_Angels"])) ∧
    (safe_filename "Blood Angels" ["Blood_Angels"] ".md"
      = ("Blood_Angels_2.md", ["Blood_Angels_2", "Blood_Angels"])) ∧
    (∀ title taken, safeFilenameCand title taken ∉ taken ∧
      safeFilenameCand title taken ∈ (safe_filename title taken ".md").2) ∧
    (∀ title taken,
      safeFilenameCand title (safeFilenameCand title taken :: taken)
        ≠ safeFilenameCand title taken) := by
  refine ⟨by decide, by decide, ?_, ?_⟩
  · intro title taken
    have hfree := exists_free_candidate (slugTxt title) taken
    have hbase : candAt (slugTxt title) 1 = slugTxt title := by
      rw [candAt, if_pos (by omega)]
    have hnot : safeFilenameCand title taken ∉ taken := by
      rw [safeFilenameCand, ← hbase]
      refine resolveCollision_free (slugTxt title) taken (taken.length + 2) 1 (by omega) ?_
      rcases hfree with ⟨j, hj, hf⟩
      exact ⟨j, hj, by simpa using hf⟩
    exact ⟨hnot, by simp [safe_filename]⟩
  · intro title taken
    have hfree := exists_free_candidate (slugTxt title) (safeFilenameCand title taken :: taken)
    have hbase : candAt (slugTxt title) 1 = slugTxt title := by
      rw [candAt, if_pos (by omega)]
    have hnot : safeFilenameCand title (safeFilenameCand title taken :: taken)
        ∉ (safeFilenameCand title taken :: taken) := by
      rw [safeFilenameCand, ← hbase]
      refine resolveCollision_free (slugTxt title) _ _ 1 (by omega) ?_
      rcases hfree with ⟨j, hj, hf⟩
      exact ⟨j, by simpa using hj, by simpa using hf⟩
    intro heq
    apply hnot
    rw [heq]
    exact List.mem_cons_self _ _

/-! ## clean_pagecontent (url_split.py lines 84-170)

The regex passes of the source are implemented as character scanners with the
exact matching semantics of the patterns involved (left-to-right,
non-overlapping, lazy/greedy as each pattern dictates); ASCII semantics of
`re`'s `\w`/`\s` and of `str.lower` are used, matching the repository's
data. -/

def charLowerEq (a b : Char) : Bool := a.toLower == b.toLower

/-- Python `str.lower()` (ASCII); structurally recursive counterpart of
`String.toLower`. -/
def toLowerS (s : String) : String := ⟨s.data.map Char.toLower⟩

/-- Case-insensitive literal prefix test. -/
def startsWithCI : List Char → List Char → Bool
  | [], _ => true
  | _ :: _, [] => false
  | p :: ps, c :: cs => charLowerEq p c && startsWithCI ps cs

/-- Everything after the first case-insensitive occurrence of `needle`
(`needle` is never empty here). -/
def findAfterCI (needle : List Char) : Nat → List Char → Option (List Char)
  | 0, _ => none
  | _ + 1, [] => if startsWithCI needle [] then some [] else none
  | f + 1, c :: rest =>
    if startsWithCI needle (c :: rest) then some ((c :: rest).drop needle.length)
    else findAfterCI needle f rest

/-- Split at the first case-insensitive occurrence of `needle`:
`(before, after-the-needle)`. -/
def splitBeforeCI (needle : List Char) : Nat → List Char → Option (List Char × List Char)
  | 0, _ => none
  | _ + 1, [] => if startsWithCI needle [] then some ([], []) else none
  | f + 1, c :: rest =>
    if startsWithCI needle (c :: rest) then some ([], (c :: rest).drop needle.length)
    else
      match splitBeforeCI needle f rest with
      | some (b, a) => some (c :: b, a)
      | none => none

/-- One pass of `re.sub(r"<name[\s\S]*?</name>", "", html, flags=re.I)`:
from each literal `<name` the text through the first following `</name>` is
deleted; a `<name` with no later `</name>` stays (the pattern cannot match
there, nor at any later position). -/
def removeBlocks (name : List Char) : Nat → List Char → List Char
  | 0, cs => cs
  | _ + 1, [] => []
  | f + 1, c :: rest =>
    if startsWithCI ('<' :: name) (c :: rest) then
      match findAfterCI ('<' :: '/' :: (name ++ ['>'])) ((c :: rest).length)
          ((c :: rest).drop (name.length + 1)) with
      | some after => removeBlocks name f after
      | none => c :: rest
    else c :: removeBlocks name f rest

def removeBlocksS (name s : String) : String :=
  ⟨removeBlocks name.data (s.data.length + 1) s.data⟩

/-- Regex `\w` (ASCII). -/
def isWordChar (c : Char) : Bool := slugKeepChar c || c == '_'

/-- The negative lookahead `(?!/?h2\b)` of the tag-stripping pass, decided on
the tag text after `<` (the character after a trailing `h2` is the closing
`>`, a non-word character, so the boundary holds at the end of the text). -/
def keepTagCheck (between : List Char) : Bool :=
  match (match between with | '/' :: t => t | t => t) with
  | c1 :: c2 :: t =>
    (c1.toLower == 'h') && (c2 == '2') &&
      (match t with | [] => true | c3 :: _ => !isWordChar c3)
  | _ => false

/-- `h_only = re.sub(r"<(?!/?h2\b)[^>]*>", "", html, flags=re.I)`: every
`<...>` group whose text does not start with an optional slash plus `h2` at a
word boundary is deleted; `<h2 ...>` and `</h2>` survive. -/
def removeNonH2Tags : Nat → List Char → List Char
  | 0, cs => cs
  | _ + 1, [] => []
  | f + 1, c :: rest =>
    if c == '<' then
      let between := rest.takeWhile (fun x => !(x == '>'))
      match rest.drop between.length with
      | '>' :: rest2 =>
        if keepTagCheck between then '<' :: (between ++ '>' :: removeNonH2Tags f rest2)
        else removeNonH2Tags f rest2
      | _ => c :: rest
    else c :: removeNonH2Tags f rest

/-- `re.sub(r"<[^>]+>", "", s)`: tags with non-empty bodies are stripped;
`<>` and an unterminated `<` stay. -/
def stripTagsL : Nat → List Char → List Char
  | 0, cs => cs
  | _ + 1, [] => []
  | f + 1, c :: rest =>
    if c == '<' then
      let between := rest.takeWhile (fun x => !(x == '>'))
      match rest.drop between.length with
      | '>' :: rest2 =>
        if between.isEmpty then c :: stripTagsL f rest
        else stripTagsL f rest2
      | _ => c :: stripTagsL f rest
    else c :: stripTagsL f rest

/-- `re.sub(r"&nbsp;", " ", s, flags=re.I)`. -/
def replaceAllCIL (pat repl : List Char) : Nat → List Char → List Char
  | 0, cs => cs
  | _ + 1, [] => []
  | f + 1, c :: rest =>
    if startsWithCI pat (c :: rest) then
      repl ++ replaceAllCIL pat repl f ((c :: rest).drop pat.length)
    else c :: replaceAllCIL pat repl f rest

/-- `re.sub(r"[ \t]+", " ", s)`. -/
def collapseSpaceTab : Nat → List Char → List Char
  | 0, cs => cs
  | _ + 1, [] => []
  | f + 1, c :: rest =>
    if c == ' ' || c == '\t' then
      ' ' :: collapseSpaceTab f (rest.dropWhile (fun x => x == ' ' || x == '\t'))
    else c :: collapseSpaceTab f rest

/-- `re.sub(r"\n\s*\n\s*\n+", "\n\n", s)`: a maximal whitespace run containing
at least three newlines is matched from its first through its last newline and
replaced by exactly two; whitespace before the first and after the last
newline of the run survives. -/
def squashWsNl3 : Nat → List Char → List Char
  | 0, cs => cs
  | _ + 1, [] => []
  | f + 1, c :: rest =>
    if c == '\n' then
      let run := (c :: rest).takeWhile (fun x => pyWsChar x)
      let runCore := (run.reverse.dropWhile (fun x => !(x == '\n'))).reverse
      if 3 ≤ (runCore.filter (fun x => x == '\n')).length then
        '\n' :: '\n' :: squashWsNl3 f ((c :: rest).drop runCore.length)
      else run ++ squashWsNl3 f ((c :: rest).drop run.length)
    else c :: squashWsNl3 f rest

/-- `re.sub(r"\n{3,}", "\n\n", pagecontent)`. -/
def squashNl3 : Nat → List Char → List Char
  | 0, cs => cs
  | _ + 1, [] => []
  | f + 1, c :: rest =>
    if c == '\n' then
      let run := (c :: rest).takeWhile (fun x => x == '\n')
      if 3 ≤ run.length then '\n' :: '\n' :: squashNl3 f ((c :: rest).drop run.length)
      else run ++ squashNl3 f ((c :: rest).drop run.length)
    else c :: squashNl3 f rest

/-- The inner `clean_text` of `clean_pagecontent` (url_split.py lines
111-116): strip tags, `&nbsp;` to space, collapse space/tab runs, squash
triple blank lines, strip. -/
def cleanTextL (l : List Char) : List Char :=
  let a := stripTagsL (l.length + 1) l
  let b := replaceAllCIL ['&', 'n', 'b', 's', 'p', ';'] [' '] (a.length + 1) a
  let c := collapseSpaceTab (b.length + 1) b
  let d := squashWsNl3 (c.length + 1) c
  stripL d

def cleanTextS (s : String) : String := ⟨cleanTextL s.data⟩

/-- A match of `<h2\b` (case-insensitive) at this position. -/
def hasH2At (cs : List Char) : Bool :=
  startsWithCI ['<', 'h', '2'] cs &&
    (match cs.drop 3 with | [] => true | c :: _ => !isWordChar c)

/-- `re.search(r"<h2\b", h_only, flags=re.I)`. -/
def hasH2Search : Nat → List Char → Bool
  | 0, _ => false
  | _ + 1, [] => false
  | f + 1, c :: rest => hasH2At (c :: rest) || hasH2Search f rest

/-- A full match of the header pattern `<h2[^>]*>(.*?)</h2>` (re.I | re.S)
starting at this position: the captured title and the text after `</h2>`. -/
def parseH2At (cs : List Char) : Option (List Char × List Char) :=
  if startsWithCI ['<', 'h', '2'] cs then
    let rest := cs.drop 3
    let between := rest.takeWhile (fun x => !(x == '>'))
    match rest.drop between.length with
    | '>' :: afterTag => splitBeforeCI ['<', '/', 'h', '2', '>'] (afterTag.length + 1) afterTag
    | _ => none
  else none

/-- `header_re.finditer` together with the body slicing of the section loop:
the text before the first header match, and for each header its title capture
and the text between its match end and the start of the next match (or the end
of the input). -/
def splitH2 : Nat → List Char → List Char × List (List Char × List Char)
  | 0, cs => (cs, [])
  | _ + 1, [] => ([], [])
  | f + 1, c :: rest =>
    match parseH2At (c :: rest) with
    | some (title, afterClose) =>
      let k := splitH2 f afterClose
      ([], (title, k.1) :: k.2)
    | none =>
      let k := splitH2 f rest
      (c :: k.1, k.2)

def BANNED_SECTIONS : List String :=
  ["contents", "videos", "sources", "gallery", "bibliography"]

def INCLUDE_HEADINGS : Bool := true

/-- Python `str.split()` (whitespace runs, no empty pieces). -/
def pyWordsL : Nat → List Char → List String
  | 0, _ => []
  | _ + 1, [] => []
  | f + 1, c :: rest =>
    if pyWsChar c then pyWordsL f rest
    else
      String.mk ((c :: rest).takeWhile (fun x => !pyWsChar x)) ::
        pyWordsL f ((c :: rest).drop ((c :: rest).takeWhile (fun x => !pyWsChar x)).length)

/-- `first_word = key.split()[0] if key else ""`.  The key always comes out of
`.strip()`, so a non-empty key contains a non-whitespace character and the
`headD` fallback is unreachable on the source's inputs. -/
def firstWord (key : String) : String :=
  if key == "" then "" else (pyWordsL (key.data.length + 1) key.data).headD ""

/-- `re.sub(r"\[\]$", "", title)`: a literal `[]` at the end of the string or
just before a final newline is removed. -/
def rmTrailBr (l : List Char) : List Char :=
  match l.reverse with
  | ']' :: '[' :: r => r.reverse
  | '\n' :: ']' :: '[' :: r => r.reverse ++ ['\n']
  | _ => l

/-- The cleaned section title (url_split.py lines 145-147). -/
def titleOf (title_html : String) : String :=
  pyStripS ⟨rmTrailBr (stripTagsL (title_html.data.length + 1) title_html.data)⟩

/-- Line 157-159: drop by exact key match or by first-word match. -/
def bannedKey (key : String) : Bool :=
  BANNED_SECTIONS.contains key || BANNED_SECTIONS.contains (firstWord key)

/-- The body of the section loop of `clean_pagecontent` (lines 140-166):
`none` when the section is skipped, otherwise the emitted part.  `title`,
`key` and `body` of the source appear inline as `titleOf title_html`,
`toLowerS (titleOf title_html)` and `cleanTextS body_html`. -/
def sectionPart (title_html body_html : String) : Option String :=
  if cleanTextS body_html == "" then none
  else if bannedKey (toLowerS (titleOf title_html)) then none
  else if INCLUDE_HEADINGS && !(titleOf title_html == "")
      && !(toLowerS (titleOf title_html) == "intro") then
    some ("## " ++ titleOf title_html ++ "\n\n" ++ cleanTextS body_html)
  else some (cleanTextS body_html)

/-- `clean_pagecontent(parse)` with `parse.get("text")` passed as the option
(the `or ""` of line 93 is `getD ""`). -/
def clean_pagecontent (textOpt : Option String) : String :=
  let html1 := replaceAllS "\\n" "\n"
    (replaceAllS "\\\"" "\"" (replaceAllS "\\\\" "\\" (textOpt.getD "")))
  let html2 := removeBlocksS "figure"
    (removeBlocksS "style" (removeBlocksS "noscript" (removeBlocksS "script" html1)))
  let hOnly : String := ⟨removeNonH2Tags (html2.data.length + 1) html2.data⟩
  if !(hasH2Search (hOnly.data.length + 1) hOnly.data) then cleanTextS hOnly
  else
    let hOnly2 :=
      if !(hasH2At hOnly.data) && !(pyStripS hOnly == "") then "<h2>Intro</h2>" ++ hOnly
      else hOnly
    let parts := ((splitH2 (hOnly2.data.length + 1) hOnly2.data).2).filterMap
      (fun s => sectionPart ⟨s.1⟩ ⟨s.2⟩)
    pyStripS ⟨squashNl3 ((joinSep "\n\n" parts).data.length + 1) (joinSep "\n\n" parts).data⟩

/-- The document text assembled by `write_doc` (url_split.py lines 240-253):
frontmatter lines joined by newlines, a blank line, the page content, and a
final newline. -/
def write_doc_content (title : String) (categories : List String)
    (pagecontent : String) : String :=
  joinSep "\n"
      (["---", "title: \"" ++ title ++ "\"", "categories:"]
        ++ categories.map (fun c => "  - " ++ c) ++ ["---"])
    ++ "\n\n" ++ pagecontent ++ "\n"

/-! ### Claims C3, C4, C10 -/

/-- Claim C3: on the given raw markup with the banned set containing
"sources", `clean_pagecontent` emits the Intro body unheaded, drops the
Sources section, and keeps History with its heading marker; the trailing
newline of the normalized body `"Hello\n\n## History\n\nOld.\n"` is appended
by `write_doc` (the pipeline's writer), whose output ends with exactly that
body. -/
theorem claim_C3 :
    clean_pagecontent
        (some "<h2>Intro</h2><p>Hello</p><h2>Sources</h2><p>x</p><h2>History</h2><p>Old.</p>")
      = "Hello\n\n## History\n\nOld." ∧
    write_doc_content "Istvaan III" []
        (clean_pagecontent
          (some "<h2>Intro</h2><p>Hello</p><h2>Sources</h2><p>x</p><h2>History</h2><p>Old.</p>"))
      = "---\ntitle: \"Istvaan III\"\ncategories:\n---\n\nHello\n\n## History\n\nOld.\n" := by
  constructor
  · decide
  · decide

/-- Claim C4: a section whose cleaned lowercased key is banned exactly or by
first word is dropped (whatever its body); the banned set is exactly
contents/videos/sources/gallery/bibliography; "Sources and Notes" is banned
via its first word, and the end-to-end run drops it while retaining the
non-empty "History of the Chapter" section. -/
theorem claim_C4 :
    (∀ title_html body_html : String,
      bannedKey (toLowerS (titleOf title_html)) = true →
      sectionPart title_html body_html = none) ∧
    BANNED_SECTIONS = ["contents", "videos", "sources", "gallery", "bibliography"] ∧
    bannedKey (toLowerS (titleOf "Sources and Notes")) = true ∧
    clean_pagecontent
        (some "<h2>Sources and Notes</h2><p>x</p><h2>History of the Chapter</h2><p>y</p>")
      = "## History of the Chapter\n\ny" := by
  refine ⟨?_, rfl, by decide, by decide⟩
  intro th bh h
  by_cases hb : cleanTextS bh == ""
  · simp [sectionPart, hb]
  · simp [sectionPart, hb, h]

/-- Witness for claim C4 at the compound heading "Sources and Notes". -/
theorem claim_C4_witness :
    bannedKey (toLowerS (titleOf "Sources and Notes")) = true ∧
      sectionPart "Sources and Notes" "x" = none :=
  ⟨by decide, claim_C4.1 "Sources and Notes" "x" (by decide)⟩

/-- Claim C10: any surviving section whose cleaned heading lowercases to
"intro" - the synthesized one or a genuine `<h2>Intro</h2>` - is emitted as
body text without a heading marker; the concrete run shows a genuine source
heading "Intro" erased from the output. -/
theorem claim_C10 :
    (∀ title_html body_html : String,
      toLowerS (titleOf title_html) = "intro" →
      ¬(cleanTextS body_html = "") →
      sectionPart title_html body_html = some (cleanTextS body_html)) ∧
    clean_pagecontent (some "<p>Lead</p><h2>Intro</h2><p>A</p><h2>History</h2><p>B</p>")
      = "Lead\n\nA\n\n## History\n\nB" := by
  refine ⟨?_, by decide⟩
  intro th bh hk hb
  have hb' : (cleanTextS bh == "") = false := by
    simpa using hb
  simp [sectionPart, hb', hk, (by decide : bannedKey "intro" = false)]

/-- Witness for claim C10 at a genuine "Intro" heading. -/
theorem claim_C10_witness :
    toLowerS (titleOf "Intro") = "intro" ∧ ¬(cleanTextS "A" = "") ∧
      sectionPart "Intro" "A" = some (cleanTextS "A") :=
  ⟨by decide, by decide, claim_C10.1 "Intro" "A" (by decide) (by decide)⟩

/-! ## node_to_markdown (v2 lines 74-141, v3 lines 70-101)

`MNode` is the markup tree: BeautifulSoup `NavigableString`s are `text`,
`Tag`s are `elem` (tag name as parsed, attributes, ordered children).  The
converters below are total structural recursions, mirroring the source's
dispatch on `node.name.lower()` with a transparent default branch. -/

inductive MNode where
  | text (s : String)
  | elem (tag : String) (attrs : List (String × String)) (children : List MNode)

mutual

/-- The document-order descendant strings of a node (`node.strings`). -/
def nodeStrings : MNode → List String
  | .text s => [s]
  | .elem _ _ children => nodesStrings children

def nodesStrings : List MNode → List String
  | [] => []
  | c :: cs => nodeStrings c ++ nodesStrings cs

end

/-- `node.get_text(" ", strip=True)`: stripped descendant strings, empty ones
dropped, joined by one space. -/
def getTextSS (n : MNode) : String :=
  joinSep " " (((nodeStrings n).map pyStripS).filter (fun s => !(s == "")))

/-- The children lists of the direct element children with this tag
(`node.find_all(tag, recursive=False)`). -/
def childElems (tag : String) (children : List MNode) : List (List MNode) :=
  children.filterMap (fun c =>
    match c with
    | .elem t _ ch => if t == tag then some ch else none
    | _ => none)

/-- Direct children that are `th` or `td` elements
(`tr.find_all(["th", "td"], recursive=False)`). -/
def cellNodes (children : List MNode) : List MNode :=
  children.filter (fun c =>
    match c with
    | .elem t _ _ => t == "th" || t == "td"
    | _ => false)

/-- `level = int(name[1])` for a heading tag name. -/
def headingLevel (name : String) : Nat :=
  if name == "h1" then 1 else if name == "h2" then 2 else if name == "h3" then 3
  else if name == "h4" then 4 else if name == "h5" then 5 else 6

/-- First attribute value under the key, or the default (`node.get`). -/
def attrGet (attrs : List (String × String)) (key dflt : String) : String :=
  match attrs.find? (fun p => p.1 == key) with
  | some p => p.2
  | none => dflt

def splitNlL (acc : List Char) : Nat → List Char → List String
  | 0, _ => [⟨acc.reverse⟩]
  | _ + 1, [] => [⟨acc.reverse⟩]
  | f + 1, c :: rest =>
    if c == '\n' then ⟨acc.reverse⟩ :: splitNlL [] f rest
    else splitNlL (c :: acc) f rest

/-- Python `str.splitlines()` on the newline-separated text the converter
builds (the source text uses `\n` separators only). -/
def splitLines (s : String) : List String :=
  if s == "" then []
  else
    match (splitNlL [] (s.data.length + 1) s.data).reverse with
    | x :: r => if x == "" then r.reverse else (x :: r).reverse
    | [] => []

/-- The table branch: one `" | "`-joined line per direct `tr` child with a
non-empty cell list (cells rendered with `get_text(" ", strip=True)`). -/
def tableRows (children : List MNode) : List String :=
  (childElems "tr" children).filterMap (fun trCh =>
    if ((cellNodes trCh).map getTextSS).isEmpty then none
    else some (joinSep " | " ((cellNodes trCh).map getTextSS)))

mutual

/-- `node_to_markdown` of fetch_warhammer_pages_for_lightrag.py (lines
74-141): headings, paragraphs, `br`, lists, bare `li`, tables, blockquotes,
images, and the transparent default recursion into children. -/
def node_to_markdown : MNode → String
  | .text s => s
  | .elem tag attrs children =>
    if toLowerS tag == "h1" || toLowerS tag == "h2" || toLowerS tag == "h3"
        || toLowerS tag == "h4" || toLowerS tag == "h5" || toLowerS tag == "h6" then
      if pyStripS (nodesToMarkdown children) == "" then ""
      else
        String.mk (List.replicate (headingLevel (toLowerS tag)) '#') ++ " "
          ++ pyStripS (nodesToMarkdown children) ++ "\n\n"
    else if toLowerS tag == "p" then
      if pyStripS (nodesToMarkdown children) == "" then ""
      else pyStripS (nodesToMarkdown children) ++ "\n\n"
    else if toLowerS tag == "br" then "\n"
    else if toLowerS tag == "ul" || toLowerS tag == "ol" then
      if (liItems (toLowerS tag) 1 children).isEmpty then ""
      else joinSep "\n" (liItems (toLowerS tag) 1 children) ++ "\n\n"
    else if toLowerS tag == "li" then nodesToMarkdown children
    else if toLowerS tag == "table" then
      if (tableRows children).isEmpty then ""
      else joinSep "\n" (tableRows children) ++ "\n\n"
    else if toLowerS tag == "blockquote" then
      if pyStripS (nodesToMarkdown children) == "" then ""
      else
        joinSep "\n"
            ((splitLines (pyStripS (nodesToMarkdown children))).map
              (fun ln => if !(pyStripS ln == "") then "> " ++ ln else ">"))
          ++ "\n\n"
    else if toLowerS tag == "img" then pyStripS (attrGet attrs "alt" "")
    else nodesToMarkdown children

def nodesToMarkdown : List MNode → String
  | [] => ""
  | c :: cs => node_to_markdown c ++ nodesToMarkdown cs

/-- The `enumerate(node.find_all("li", recursive=False), start=1)` loop:
`i` advances on every direct `li` child, items whose converted text strips to
empty are skipped (leaving numbering gaps in `ol`). -/
def liItems (name : String) (i : Nat) : List MNode → List String
  | [] => []
  | c :: cs =>
    match c with
    | .elem t _ ch =>
      if t == "li" then
        if pyStripS (nodesToMarkdown ch) == "" then liItems name (i + 1) cs
        else
          (if name == "ul" then "- " ++ pyStripS (nodesToMarkdown ch)
            else natDecimal i ++ ". " ++ pyStripS (nodesToMarkdown ch))
            :: liItems name (i + 1) cs
      else liItems name i cs
    | .text _ => liItems name i cs

end

mutual

/-- `node_to_markdown` of fetch_warhammer_pages_for_lightrag_v3.py (lines
70-101): as v2 but with no `br` and no bare-`li` branch. -/
def node_to_markdown_v3 : MNode → String
  | .text s => s
  | .elem tag attrs children =>
    if toLowerS tag == "h1" || toLowerS tag == "h2" || toLowerS tag == "h3"
        || toLowerS tag == "h4" || toLowerS tag == "h5" || toLowerS tag == "h6" then
      if pyStripS (nodesToMarkdownV3 children) == "" then ""
      else
        String.mk (List.replicate (headingLevel (toLowerS tag)) '#') ++ " "
          ++ pyStripS (nodesToMarkdownV3 children) ++ "\n\n"
    else if toLowerS tag == "p" then
      if pyStripS (nodesToMarkdownV3 children) == "" then ""
      else pyStripS (nodesToMarkdownV3 children) ++ "\n\n"
    else if toLowerS tag == "ul" || toLowerS tag == "ol" then
      if (liItemsV3 (toLowerS tag) 1 children).isEmpty then ""
      else joinSep "\n" (liItemsV3 (toLowerS tag) 1 children) ++ "\n\n"
    else if toLowerS tag == "table" then
      if (tableRows children).isEmpty then ""
      else joinSep "\n" (tableRows children) ++ "\n\n"
    else if toLowerS tag == "blockquote" then
      if pyStripS (nodesToMarkdownV3 children) == "" then ""
      else
        joinSep "\n"
            ((splitLines (pyStripS (nodesToMarkdownV3 children))).map
              (fun ln => if !(pyStripS ln == "") then "> " ++ ln else ">"))
          ++ "\n\n"
    else if toLowerS tag == "img" then pyStripS (attrGet attrs "alt" "")
    else nodesToMarkdownV3 children

def nodesToMarkdownV3 : List MNode → String
  | [] => ""
  | c :: cs => node_to_markdown_v3 c ++ nodesToMarkdownV3 cs

def liItemsV3 (name : String) (i : Nat) : List MNode → List String
  | [] => []
  | c :: cs =>
    match c with
    | .elem t _ ch =>
      if t == "li" then
        if pyStripS (nodesToMarkdownV3 ch) == "" then liItemsV3 name (i + 1) cs
        else
          (if name == "ul" then "- " ++ pyStripS (nodesToMarkdownV3 ch)
            else natDecimal i ++ ". " ++ pyStripS (nodesToMarkdownV3 ch))
            :: liItemsV3 name (i + 1) cs
      else liItemsV3 name i cs
    | .text _ => liItemsV3 name i cs

end

/-- The lowercased tag names with an explicit branch in v2. -/
def handledTagsV2 : List String :=
  ["h1", "h2", "h3", "h4", "h5", "h6", "p", "br", "ul", "ol", "li", "table",
    "blockquote", "img"]

/-- The lowercased tag names with an explicit branch in v3. -/
def handledTagsV3 : List String :=
  ["h1", "h2", "h3", "h4", "h5", "h6", "p", "ul", "ol", "table", "blockquote", "img"]

/-! ### Claim C9 -/

/-- Claim C9: both converters are total Lean functions on every markup tree
(so they never raise), and any element whose lowercased tag has no explicit
branch is converted by recursing into its children and concatenating their
converted text verbatim. -/
theorem claim_C9 :
    (∀ (tag : String) (attrs : List (String × String)) (children : List MNode),
      toLowerS tag ∉ handledTagsV2 →
      node_to_markdown (.elem tag attrs children) = nodesToMarkdown children) ∧
    (∀ (tag : String) (attrs : List (String × String)) (children : List MNode),
      toLowerS tag ∉ handledTagsV3 →
      node_to_markdown_v3 (.elem tag attrs children) = nodesToMarkdownV3 children) := by
  constructor
  · intro tag attrs children h
    simp only [handledTagsV2, List.mem_cons, List.not_mem_nil, or_false, not_or] at h
    obtain ⟨e1, e2, e3, e4, e5, e6, e7, e8, e9, e10, e11, e12, e13, e14⟩ := h
    simp [node_to_markdown, e1, e2, e3, e4, e5, e6, e7, e8, e9, e10, e11, e12, e13, e14]
  · intro tag attrs children h
    simp only [handledTagsV3, List.mem_cons, List.not_mem_nil, or_false, not_or] at h
    obtain ⟨e1, e2, e3, e4, e5, e6, e7, e8, e9, e10, e11, e12⟩ := h
    simp [node_to_markdown_v3, e1, e2, e3, e4, e5, e6, e7, e8, e9, e10, e11, e12]

/-- Witness for claim C9: a `span` element passes its children through
verbatim in both converters. -/
theorem claim_C9_witness :
    (toLowerS "span" ∉ handledTagsV2 ∧
      node_to_markdown (.elem "span" [("class", "x")] [.text "a"])
        = nodesToMarkdown [.text "a"]) ∧
    (toLowerS "span" ∉ handledTagsV3 ∧
      node_to_markdown_v3 (.elem "span" [] [.text "a"])
        = nodesToMarkdownV3 [.text "a"]) :=
  ⟨⟨by decide, claim_C9.1 "span" [("class", "x")] [.text "a"] (by decide)⟩,
    ⟨by decide, claim_C9.2 "span" [] [.text "a"] (by decide)⟩⟩

/-! ## page_generator (get_urls.py lines 40-78)

One scripted entry per request issued by the `while True` loop: `fail` models
the `except` branch (the loop sleeps and continues with the same `cont`),
`ok pages cont` a decoded response - `pages` is
`data["query"]["pages"]` when `"query"`/`"pages"` are present, `cont` the
optional `continue` object (modelled as an opaque token merged verbatim into
the next request's parameters via `{**params, **cont}`). -/

inductive QResp where
  | fail
  | ok (pages : Option (List Nat)) (cont : Option String)
deriving DecidableEq

/-- The observable behaviour of one run of `page_generator`: the page records
yielded, the `cont` component of each request's merged parameters in order,
and whether the loop reached its `break`. -/
structure CrawlRun where
  records : List Nat
  reqConts : List (Option String)
  terminated : Bool
deriving DecidableEq

/-- `page_generator`, driven by a finite script of responses; an exhausted
script with no `break` reached leaves `terminated = false`. -/
def page_generator : List QResp → Option String → CrawlRun
  | [], _ => ⟨[], [], false⟩
  | r :: rest, cont =>
    match r with
    | .fail =>
      let k := page_generator rest cont
      ⟨k.records, cont :: k.reqConts, k.terminated⟩
    | .ok pages c =>
      match c with
      | some tok =>
        let k := page_generator rest (some tok)
        ⟨pages.getD [] ++ k.records, cont :: k.reqConts, k.terminated⟩
      | none => ⟨pages.getD [], [cont], true⟩

/-- A response that ends the crawl: decoded, with no `continue` object. -/
def isEndResp : QResp → Bool
  | .ok _ none => true
  | _ => false

/-! ### Claim C8 -/

/-- Claim C8: if none of the first responses omits the continuation token,
and then one does, the crawl terminates right after consuming that response
(whatever records it carried, including none, and whatever the script holds
beyond it), having issued exactly one request per consumed response; the
first request carries the initial cursor, and each later request's cursor is
the token of the previous response when that response carried one, and the
previous request's cursor unchanged when the previous request failed. -/
theorem claim_C8 :
    ∀ (pre post : List QResp) (pages : Option (List Nat)) (cont0 : Option String),
      (∀ r ∈ pre, isEndResp r = false) →
      (page_generator (pre ++ QResp.ok pages none :: post) cont0).terminated = true ∧
      (page_generator (pre ++ QResp.ok pages none :: post) cont0).reqConts.length
        = pre.length + 1 ∧
      (page_generator (pre ++ QResp.ok pages none :: post) cont0).reqConts.getD 0 none
        = cont0 ∧
      (∀ j, j < pre.length →
        (page_generator (pre ++ QResp.ok pages none :: post) cont0).reqConts.getD (j + 1) none
          = match pre.getD j QResp.fail with
            | QResp.ok _ (some tok) => some tok
            | _ => (page_generator (pre ++ QResp.ok pages none :: post) cont0).reqConts.getD
                j none) := by
  intro pre
  induction pre with
  | nil =>
    intro post pages cont0 _
    refine ⟨rfl, rfl, rfl, ?_⟩
    intro j hj
    simp at hj
  | cons a pre ih =>
    intro post pages cont0 h
    have ha : isEndResp a = false := h a (by simp)
    have hrest : ∀ r ∈ pre, isEndResp r = false := fun r hr => h r (by simp [hr])
    match a, ha with
    | .fail, _ =>
      have k := ih post pages cont0 hrest
      refine ⟨by simpa [page_generator] using k.1, ?_, ?_, ?_⟩
      · simp [page_generator, k.2.1]
      · simp [page_generator]
      · intro j hj
        match j with
        | 0 =>
          simp only [List.cons_append, page_generator, List.getD_cons_succ,
            List.getD_cons_zero]
          exact k.2.2.1
        | j' + 1 =>
          have hj' : j' < pre.length := by simpa using hj
          have := k.2.2.2 j' hj'
          simpa [page_generator, List.getD_cons_succ] using this
    | .ok p (some tok), _ =>
      have k := ih post pages (some tok) hrest
      refine ⟨by simpa [page_generator] using k.1, ?_, ?_, ?_⟩
      · simp [page_generator, k.2.1]
      · simp [page_generator]
      · intro j hj
        match j with
        | 0 =>
          simp only [List.cons_append, page_generator, List.getD_cons_succ,
            List.getD_cons_zero]
          exact k.2.2.1
        | j' + 1 =>
          have hj' : j' < pre.length := by simpa using hj
          have := k.2.2.2 j' hj'
          simpa [page_generator, List.getD_cons_succ] using this

/-- Witness for claim C8: a page with a token, a failed request, then a final
response carrying zero records and no token; the crawl breaks after the third
request. -/
theorem claim_C8_witness :
    (page_generator ([QResp.ok (some [1, 2]) (some "t1"), QResp.fail]
        ++ QResp.ok (some []) none :: [QResp.fail]) none).terminated = true ∧
    (page_generator ([QResp.ok (some [1, 2]) (some "t1"), QResp.fail]
        ++ QResp.ok (some []) none :: [QResp.fail]) none).reqConts.length = 2 + 1 := by
  have h := claim_C8 [QResp.ok (some [1, 2]) (some "t1"), QResp.fail] [QResp.fail]
    (some []) none (by decide)
  exact ⟨h.1, h.2.1⟩

/-! ## The per-page driver loop of main (v2 lines 261-330)

`PageRec` is one row of the deduplicated input frame; `resps p` is the
response script the fetch of page `p` observes.  A page either succeeds
(its id is appended to the written list) or contributes exactly one failure
row, and the loop always continues with the next page; `fail_rows` is written
out once, at the end, only when non-empty. -/

structure PageRec where
  page_id : Nat
  title : String
  url : String
deriving DecidableEq

structure FailRow where
  page_id : Nat
  title : String
  url : String
  error : ErrDesc
deriving DecidableEq

/-- The failure row a page contributes, if its processing fails. -/
def pageFailRow (resps : PageRec → Nat → ApiResp) (p : PageRec) : Option FailRow :=
  match processPage (fetch_with_backoff (resps p)).1 with
  | .ok _ => none
  | .error e => some ⟨p.page_id, p.title, p.url, e⟩

/-- The id a page contributes to the written list, if processing succeeds. -/
def pageOkId (resps : PageRec → Nat → ApiResp) (p : PageRec) : Option Nat :=
  match processPage (fetch_with_backoff (resps p)).1 with
  | .ok _ => some p.page_id
  | .error _ => none

/-- One iteration of the `for idx, row in df.iterrows()` loop: the `try`
body writes the page, the `except` appends one row to `fail_rows`. -/
def mainStep (resps : PageRec → Nat → ApiResp) (acc : List Nat × List FailRow)
    (p : PageRec) : List Nat × List FailRow :=
  match processPage (fetch_with_backoff (resps p)).1 with
  | .ok _ => (acc.1 ++ [p.page_id], acc.2)
  | .error e => (acc.1, acc.2 ++ [⟨p.page_id, p.title, p.url, e⟩])

def main_loop (pages : List PageRec) (resps : PageRec → Nat → ApiResp) :
    List Nat × List FailRow :=
  pages.foldl (mainStep resps) ([], [])

/-- `if fail_rows: pd.DataFrame(fail_rows).to_csv(FAIL_LOG, ...)`: the
failure report written once after the loop. -/
def failure_report (pages : List PageRec) (resps : PageRec → Nat → ApiResp) :
    Option (List FailRow) :=
  if (main_loop pages resps).2.isEmpty then none else some (main_loop pages resps).2

theorem main_loop_eq (resps : PageRec → Nat → ApiResp) :
    ∀ (pages : List PageRec) (a : List Nat) (b : List FailRow),
      pages.foldl (mainStep resps) (a, b)
        = (a ++ pages.filterMap (pageOkId resps), b ++ pages.filterMap (pageFailRow resps)) := by
  intro pages
  induction pages with
  | nil => intro a b; simp
  | cons p ps ih =>
    intro a b
    cases hp : processPage (fetch_with_backoff (resps p)).1 with
    | ok u =>
      simp only [List.foldl_cons, mainStep, hp]
      rw [ih]
      simp [pageOkId, pageFailRow, hp]
    | error e =>
      simp only [List.foldl_cons, mainStep, hp]
      rw [ih]
      simp [pageOkId, pageFailRow, hp]

theorem filterMap_ok_fail_length (resps : PageRec → Nat → ApiResp) :
    ∀ pages : List PageRec,
      (pages.filterMap (pageOkId resps)).length
        + (pages.filterMap (pageFailRow resps)).length = pages.length := by
  intro pages
  induction pages with
  | nil => simp
  | cons p ps ih =>
    rw [List.filterMap_cons, List.filterMap_cons]
    cases hp : processPage (fetch_with_backoff (resps p)).1 with
    | ok u =>
      have hok : pageOkId resps p = some p.page_id := by simp [pageOkId, hp]
      have hfail : pageFailRow resps p = none := by simp [pageFailRow, hp]
      simp [hok, hfail]
      omega
    | error e =>
      have hok : pageOkId resps p = none := by simp [pageOkId, hp]
      have hfail : pageFailRow resps p = some ⟨p.page_id, p.title, p.url, e⟩ := by
        simp [pageFailRow, hp]
      simp [hok, hfail]
      omega

/-- Claim C7: every page whose processing fails (fetch failure after the
bounded retries, fatal API error, or empty content) contributes exactly one
failure row carrying its id, title, URL and error description, in page order;
every page contributes exactly one outcome, so a failure never stops the
loop; and the accumulated rows are emitted once at the end whenever any page
failed. -/
theorem claim_C7 :
    ∀ (pages : List PageRec) (resps : PageRec → Nat → ApiResp),
      (main_loop pages resps).2 = pages.filterMap (pageFailRow resps) ∧
      (main_loop pages resps).1.length + (main_loop pages resps).2.length
        = pages.length ∧
      (pages.filterMap (pageFailRow resps) ≠ [] →
        failure_report pages resps = some (pages.filterMap (pageFailRow resps))) := by
  intro pages resps
  have hloop : main_loop pages resps
      = (pages.filterMap (pageOkId resps), pages.filterMap (pageFailRow resps)) := by
    have := main_loop_eq resps pages [] []
    simpa [main_loop] using this
  refine ⟨by rw [hloop], ?_, ?_⟩
  · rw [hloop]
    exact filterMap_ok_fail_length resps pages
  · intro hne
    rw [failure_report, hloop]
    simp only []
    rw [if_neg (by simpa [List.isEmpty_iff] using hne)]

/-- Witness for claim C7: a single page whose fetch dies on request
exceptions is recorded with its identity and a fetch-failure description, and
the report is written. -/
theorem claim_C7_witness :
    failure_report [⟨7, "Angron", "https://w/Angron"⟩] (fun _ _ => ApiResp.exc)
      = some [⟨7, "Angron", "https://w/Angron", ErrDesc.fetchFailure⟩] :=
  (claim_C7 [⟨7, "Angron", "https://w/Angron"⟩] (fun _ _ => ApiResp.exc)).2.2 (by decide)
